import Mathlib

/-!
Verification development for the sheafy VS Code extension's content-export
pipeline (`src/fileProcessor.ts`, `src/sheafyConfig.ts`).

Modelling conventions:
* JS strings are modelled as `List Char` (`Str`); all modelled string
  operations (`startsWith`, `includes`, global literal `replace`, `split`,
  `join`, `trim`) act on character lists.
* Absolute filesystem paths are POSIX-style and modelled as lists of path
  components (`AbsPath`).  Node's `path.join` / `path.resolve` /
  `path.relative` are modelled on components; the `.replace(/\\/g, '/')`
  backslash normalisation in the source is the identity on POSIX paths
  and is therefore dropped.
* Machine effects (file reads, clipboard, document tabs, mkdir, writes)
  are oracles passed in as `Except`-valued functions; the cancellation
  token is modelled as an optional moment `some k`: the k-th
  `isCancellationRequested` poll (counted across the run) and all later
  polls report cancellation, earlier ones do not.
-/

namespace Sheafy

/-- JS strings, modelled as lists of characters. -/
abbrev Str := List Char

/-- Embed a Lean string literal as a modelled JS string. -/
def str (s : String) : Str := s.data

instance {ε α : Type} [DecidableEq ε] [DecidableEq α] : DecidableEq (Except ε α) :=
  fun x y =>
  match x, y with
  | .error a, .error b =>
    if h : a = b then .isTrue (by rw [h]) else .isFalse (fun hc => h (Except.error.inj hc))
  | .ok a, .ok b =>
    if h : a = b then .isTrue (by rw [h]) else .isFalse (fun hc => h (Except.ok.inj hc))
  | .error _, .ok _ => .isFalse (fun hc => Except.noConfusion hc)
  | .ok _, .error _ => .isFalse (fun hc => Except.noConfusion hc)

/-- Boolean prefix test on lists (JS `String.prototype.startsWith` when
used on `Str`). -/
def isPre {α : Type} [DecidableEq α] : List α → List α → Bool
  | [], _ => true
  | _ :: _, [] => false
  | a :: as, b :: bs => if a = b then isPre as bs else false

/-- Substring occurrence test (JS `String.prototype.includes`). -/
def occurs (pat : Str) : Str → Bool
  | [] => pat = []
  | c :: rest => isPre pat (c :: rest) || occurs pat rest

/-- ECMAScript `GetSubstitution` for a string replacement value, for a
regex without capture groups (the three placeholder regexes have none):
`$$` yields `$`, `$&` yields the matched text, `$` followed by the
character 0x60 (backquote) yields the part of the original subject
before the match, `$` followed by the character 0x27 (single quote)
yields the part after the match, and every other use of `$` — including
`$n` and `$<...>`, since there are no (named) capture groups — is
literal. -/
def getSubGo (matched before after : Str) : Bool → Str → Str
  | false, [] => []
  | true, [] => ['$']
  | false, c :: rest =>
    if c = '$' then getSubGo matched before after true rest
    else c :: getSubGo matched before after false rest
  | true, c :: rest =>
    if c = '$' then '$' :: getSubGo matched before after false rest
    else if c = '&' then matched ++ getSubGo matched before after false rest
    else if c = Char.ofNat 96 then before ++ getSubGo matched before after false rest
    else if c = Char.ofNat 39 then after ++ getSubGo matched before after false rest
    else '$' :: c :: getSubGo matched before after false rest

/-- Entry point of the substitution scan: no pending `$`. -/
def getSubstitution (matched before after s : Str) : Str :=
  getSubGo matched before after false s

/-- Scanner for one pass of JS `String.prototype.replace` with a global
literal pattern: scan left to right; on a match emit the replacement
value processed by `getSubstitution` (against the original subject:
`pre` accumulates the already-consumed original characters in reverse)
and step over the rest of the matched text (the `skip` counter), never
rescanning replaced or matched text within the same pass. -/
def replGo (pat repl : Str) : Nat → Str → Str → Str
  | _, _, [] => []
  | k + 1, pre, c :: rest => replGo pat repl k (c :: pre) rest
  | 0, pre, c :: rest =>
    if pat ≠ [] ∧ isPre pat (c :: rest) = true then
      getSubstitution pat pre.reverse (List.drop pat.length (c :: rest)) repl
        ++ replGo pat repl (pat.length - 1) (c :: pre) rest
    else c :: replGo pat repl 0 (c :: pre) rest

/-- JS `s.replace(/pat/g, repl)` for a literal pattern `pat` and a string
replacement value `repl`, `$`-sequences included. -/
def replaceAll (s pat repl : Str) : Str := replGo pat repl 0 [] s

/-- JS `String.prototype.split` with a single-character separator. -/
def splitOnChar (sep : Char) : Str → List Str
  | [] => [[]]
  | c :: rest =>
    match splitOnChar sep rest with
    | [] => [[]]
    | h :: t => if c = sep then [] :: h :: t else (c :: h) :: t

/-- JS `Array.prototype.join` with a string separator. -/
def joinSep (sep : Str) : List Str → Str
  | [] => []
  | [p] => p
  | p :: q :: rest => p ++ sep ++ joinSep sep (q :: rest)

/-- Whitespace recognised by the modelled JS `trim`. -/
def isWS (c : Char) : Bool := c = ' ' || c = '\t' || c = '\n' || c = '\r'

/-- JS `String.prototype.trim` (restricted to the common whitespace). -/
def trimStr (s : Str) : Str := ((s.dropWhile isWS).reverse.dropWhile isWS).reverse

/-- JS `String.prototype.toLowerCase`, character by character. -/
def toLowerStr (s : Str) : Str := s.map Char.toLower

/-- Absolute POSIX paths, as lists of path components. -/
abbrev AbsPath := List Str

/-- Split a path string into slash-separated pieces. -/
def splitSlash (s : Str) : List Str := splitOnChar '/' s

/-- Join path components with forward slashes. -/
def joinSlash (ps : List Str) : Str := joinSep ['/'] ps

/-- One step of Node path normalisation: drop empty and `.` components,
let `..` pop the previous component. -/
def normStep (acc : List Str) (c : Str) : List Str :=
  if c = [] ∨ c = str "." then acc
  else if c = str ".." then acc.dropLast
  else acc ++ [c]

/-- Node `path.join(base, …parts)` for an absolute base: append the parts
and normalise. -/
def joinAbs (base : AbsPath) (parts : List Str) : AbsPath := parts.foldl normStep base

/-- Node `path.resolve(base, p)`: an absolute `p` (leading slash) wins,
otherwise `p` is joined onto the absolute base. -/
def resolveAbs (base : AbsPath) (p : Str) : AbsPath :=
  if isPre (str "/") p then joinAbs [] (splitSlash p) else joinAbs base (splitSlash p)

/-- Strip the longest common component prefix of two paths. -/
def dropCommon : List Str → List Str → List Str × List Str
  | a :: as, b :: bs => if a = b then dropCommon as bs else (a :: as, b :: bs)
  | as, bs => (as, bs)

/-- Node `path.relative(fromP, toP)` on components: climb out of the
non-shared part of `fromP`, then descend into the non-shared part of
`toP`. -/
def relComps (fromP toP : AbsPath) : List Str :=
  let s := dropCommon fromP toP
  List.replicate s.1.length (str "..") ++ s.2

/-- Node `path.relative` rendered as a slash-joined string. -/
def relStr (fromP toP : AbsPath) : Str := joinSlash (relComps fromP toP)

/-- Render an absolute path as a string (for user-facing messages). -/
def absStr (p : AbsPath) : Str := '/' :: joinSlash p

/-- Modelled from the spec: the matcher of the npm `ignore` package (a
dependency, not part of this repository's sources), which the spec
describes as "standard ignore-file glob semantics (`*`, `**`, directory
anchors, negation with `!`, …)".  The model covers the fragment the
claims exercise: literal (wildcard-free) patterns, with a leading `!`
negating and the last matching pattern winning.  `parsePat` splits one
pattern into its negation flag and its slash-separated components. -/
def parsePat (p : Str) : Bool × List Str :=
  if isPre (str "!") p then (true, splitSlash (p.drop 1)) else (false, splitSlash p)

/-- Modelled from the spec (npm `ignore`, literal fragment): a one-component
pattern matches any path having that component; a multi-component pattern
is anchored at the root and matches the path itself and everything under
it. -/
def matchComps (patComps : List Str) (rel : List Str) : Bool :=
  match patComps with
  | [] => false
  | [c] => rel.contains c
  | pcs => isPre pcs rel

/-- Modelled from the spec (npm `ignore`): evaluate a pattern list against
a slash-split relative path; the last matching pattern decides, a `!`
pattern deciding "not ignored". -/
def ignoresList (pats : List Str) (rel : List Str) : Bool :=
  pats.foldl (fun acc p =>
    let pp := parsePat p
    if matchComps pp.2 rel then !pp.1 else acc) false

/-- The four export destination kinds (`sheafy.exportDestinations`). -/
inductive Dest where
  | clipboard
  | tempTab
  | rootDir
  | workingDir
deriving DecidableEq

/-- Effective merged configuration (`MergedSheafyConfig` in
`src/sheafyConfig.ts`), restricted to the effective fields the export
pipeline reads. -/
structure MergedSheafyConfig where
  basePath : AbsPath
  bundle_name : Str
  working_dir : AbsPath
  use_gitignore : Bool
  ignore_patterns_array : List Str
  prologue : Str
  epilogue : Str
  exportFormatTemplate : Str
  exportDestinations : List Dest
  folderExportPathRelativeToClickedFolder : Bool

/-- The optional `[sheafy]` section of `sheafy.toml`
(`SheafyTomlConfig` in `src/sheafyConfig.ts`); absent keys are `none`. -/
structure SheafyTomlConfig where
  bundle_name : Option Str := none
  working_dir : Option Str := none
  use_gitignore : Option Bool := none
  ignore_patterns : Option Str := none
  prologue : Option Str := none
  epilogue : Option Str := none

/-- Host-level settings (`SheafyVSCodeSettings` in `src/sheafyConfig.ts`). -/
structure SheafyVSCodeSettings where
  respectGitignore : Bool
  exportDestinations : List Dest
  exportFormatTemplate : Str
  folderExportPathRelativeToClickedFolder : Bool

/-- JS `v || d` for an optional string `v`: an absent or empty (falsy)
string falls back to the default. -/
def jsOrStr (v : Option Str) (d : Str) : Str :=
  match v with
  | some s => if s = [] then d else s
  | none => d

/-- Parsing of the multi-line `ignore_patterns` value
(`src/sheafyConfig.ts` lines 114-118): split on newlines, trim, drop
blank lines and `#` comment lines. -/
def parseIgnorePatterns (raw : Str) : List Str :=
  ((splitOnChar '\n' raw).map trimStr).filter
    (fun p => p ≠ [] ∧ isPre (str "#") p = false)

/-- The merge step of `loadSheafyConfig` (`src/sheafyConfig.ts` lines
105-135), from the parsed `[sheafy]` section (or `none` when the file is
absent or malformed) and the host-level settings. -/
def mergeSheafyConfig (tomlConfig : Option SheafyTomlConfig)
    (vscodeConfig : SheafyVSCodeSettings) (basePath : AbsPath) : MergedSheafyConfig :=
  { basePath := basePath
    bundle_name := jsOrStr (tomlConfig.bind (fun t => t.bundle_name)) (str "project_bundle.md")
    working_dir := resolveAbs basePath
      (jsOrStr (tomlConfig.bind (fun t => t.working_dir)) (str "."))
    use_gitignore :=
      match tomlConfig.bind (fun t => t.use_gitignore) with
      | some b => b
      | none => vscodeConfig.respectGitignore
    ignore_patterns_array :=
      parseIgnorePatterns (jsOrStr (tomlConfig.bind (fun t => t.ignore_patterns)) [])
    prologue := jsOrStr (tomlConfig.bind (fun t => t.prologue)) []
    epilogue := jsOrStr (tomlConfig.bind (fun t => t.epilogue)) []
    exportFormatTemplate := vscodeConfig.exportFormatTemplate
    exportDestinations :=
      if vscodeConfig.exportDestinations ≠ [] then vscodeConfig.exportDestinations
      else [Dest.clipboard]
    folderExportPathRelativeToClickedFolder :=
      vscodeConfig.folderExportPathRelativeToClickedFolder }

/-- Index of the last `.` in a file name, if any (Node `path.extname`
helper). -/
def lastDotIdx (s : Str) : Option Nat :=
  ((List.range s.length).filter (fun i => s.get? i = some '.')).getLast?

/-- Node `path.extname` on a base name: the suffix from the last dot,
empty when there is no dot or the only dot is the leading character. -/
def extname (s : Str) : Str :=
  match lastDotIdx s with
  | none => []
  | some 0 => []
  | some i => s.drop i

/-- The static extension-to-language table of `getLanguageId`
(`src/fileProcessor.ts` lines 64-80). -/
def langMap : List (Str × Str) :=
  [(str "ts", str "typescript"), (str "tsx", str "typescriptreact"),
   (str "js", str "javascript"), (str "jsx", str "javascriptreact"),
   (str "py", str "python"), (str "java", str "java"), (str "cs", str "csharp"),
   (str "cpp", str "cpp"), (str "h", str "cpp"), (str "hpp", str "cpp"), (str "c", str "c"),
   (str "go", str "go"), (str "rb", str "ruby"), (str "php", str "php"),
   (str "html", str "html"), (str "htm", str "html"), (str "css", str "css"),
   (str "scss", str "scss"), (str "sass", str "sass"), (str "less", str "less"),
   (str "json", str "json"), (str "xml", str "xml"), (str "md", str "markdown"),
   (str "sh", str "shellscript"), (str "bash", str "shellscript"), (str "zsh", str "shellscript"),
   (str "yaml", str "yaml"), (str "yml", str "yaml"), (str "toml", str "toml"),
   (str "sql", str "sql"), (str "swift", str "swift"), (str "kt", str "kotlin"),
   (str "rs", str "rust"), (str "lua", str "lua"), (str "pl", str "perl"),
   (str "scala", str "scala"), (str "vb", str "vb"), (str "dart", str "dart"),
   (str "dockerfile", str "dockerfile"), (str "graphql", str "graphql"),
   (str "vue", str "vue"), (str "svelte", str "svelte")]

/-- `getLanguageId` (`src/fileProcessor.ts` lines 62-82): look the
lower-cased extension up in the table, else the literal extension, else
`plaintext`. -/
def getLanguageId (filePath : AbsPath) : Str :=
  let base : Str := (filePath.getLast?).getD []
  let ext : Str := toLowerStr ((extname base).drop 1)
  match (langMap.find? (fun e => e.1 = ext)).map (fun e => e.2) with
  | some l => l
  | none => if ext = [] then str "plaintext" else ext

/-- The literal `\x7brelpath\x7d` placeholder. -/
def plRelpath : Str := str "\x7brelpath\x7d"

/-- The literal `\x7blang\x7d` placeholder. -/
def plLang : Str := str "\x7blang\x7d"

/-- The literal `\x7bcontent\x7d` placeholder. -/
def plContent : Str := str "\x7bcontent\x7d"

/-- The templater (`src/fileProcessor.ts` lines 170-173): three
sequential global literal replacements, in the order relpath, lang,
content. -/
def renderTemplate (template relpath lang content : Str) : Str :=
  replaceAll (replaceAll (replaceAll template plRelpath relpath) plLang lang) plContent content

/-- The inline error marker pushed when a file read fails
(`src/fileProcessor.ts` line 178). -/
def errorSegment (relPathForTemplate msg : Str) : Str :=
  str "### " ++ relPathForTemplate ++ str "\n\n--- ERROR: Could not read file: "
    ++ msg ++ str " ---\n"

/-- The root-relative, slash-normalised path used for ignore matching
(`src/fileProcessor.ts` line 144). -/
def relFilterOf (config : MergedSheafyConfig) (filePath : AbsPath) : Str :=
  relStr config.basePath filePath

/-- The path substituted into the template (`src/fileProcessor.ts` lines
145-152): relative to `startPath` exactly when exporting from a proper
subdirectory with the relativize flag on, else relative to the root. -/
def relTemplateOf (config : MergedSheafyConfig) (startPath filePath : AbsPath) : Str :=
  if startPath ≠ config.basePath ∧ config.folderExportPathRelativeToClickedFolder then
    relStr startPath filePath
  else relStr config.basePath filePath

/-- The hard-coded VCS-metadata exclusion of the filter loop
(`src/fileProcessor.ts` line 154):
`relPathForFilter.startsWith('.git/') || relPathForFilter === '.git'`. -/
def gitMetaExcluded (rel : Str) : Bool :=
  isPre (str ".git/") rel || rel = str ".git"

/-- The bundle filename resolved against the root directory, made
root-relative (`src/fileProcessor.ts` line 114). -/
def bundleRelPathInRootDir (config : MergedSheafyConfig) : Str :=
  relStr config.basePath (joinAbs config.basePath (splitSlash config.bundle_name))

/-- The bundle filename resolved against the working directory, made
root-relative (`src/fileProcessor.ts` line 116). -/
def bundleRelPathInWorkingDir (config : MergedSheafyConfig) : Str :=
  relStr config.basePath (joinAbs config.working_dir (splitSlash config.bundle_name))

/-- The pattern list of the tool ignore set `mainFilter`, in addition
order (`src/fileProcessor.ts` lines 112-123). -/
def mainFilterPatterns (config : MergedSheafyConfig) : List Str :=
  [bundleRelPathInRootDir config]
    ++ (if bundleRelPathInWorkingDir config ≠ bundleRelPathInRootDir config then
          [bundleRelPathInWorkingDir config] else [])
    ++ [relStr config.basePath (joinAbs config.basePath (splitSlash (str "sheafy.toml")))]
    ++ config.ignore_patterns_array

/-- Spec-side exclusion predicate (claim C1's disjunction): hard-coded
VCS-metadata prefix, or the VCS set (consulted only under the effective
flag), or the tool set. -/
def excludedSpec (config : MergedSheafyConfig) (vcsPats : List Str) (rel : Str) : Bool :=
  gitMetaExcluded rel
    || (config.use_gitignore && ignoresList vcsPats (splitSlash rel))
    || ignoresList (mainFilterPatterns config) (splitSlash rel)

/-- Has the token been cancelled at poll-moment `cnt`? -/
def isCancelled (tok : Option Nat) (cnt : Nat) : Bool :=
  match tok with
  | none => false
  | some k => k ≤ cnt

/-- One `isCancellationRequested` poll guarding a `CancellationError`
throw; on success the poll counter advances. -/
def checkTok (tok : Option Nat) (cnt : Nat) : Except Unit Nat :=
  if isCancelled tok cnt then .error () else .ok (cnt + 1)

/-- One file's rendered segment (`src/fileProcessor.ts` lines 167-179):
a successful read renders the template, a failed read yields the inline
error marker. -/
def fileSegment (config : MergedSheafyConfig) (startPath : AbsPath)
    (readFn : AbsPath → Except Str Str) (filePath : AbsPath) : Str :=
  match readFn filePath with
  | .ok content =>
    renderTemplate config.exportFormatTemplate (relTemplateOf config startPath filePath)
      (getLanguageId filePath) content
  | .error msg => errorSegment (relTemplateOf config startPath filePath) msg

/-- The filter-and-format loop (`src/fileProcessor.ts` lines 141-183):
poll the token, compute the filter path, apply the three sequential
`continue` tests (hard-coded `.git`, VCS set when present, tool set),
and push the segment of each surviving file onto the output parts. -/
def processFiles (tok : Option Nat) (config : MergedSheafyConfig) (startPath : AbsPath)
    (vcsIg : Option (List Str)) (readFn : AbsPath → Except Str Str) :
    Nat → List AbsPath → List Str → Except Unit (Nat × List Str)
  | cnt, [], parts => .ok (cnt, parts)
  | cnt, f :: rest, parts =>
    match checkTok tok cnt with
    | .error u => .error u
    | .ok c1 =>
      let relPathForFilter := relFilterOf config f
      if gitMetaExcluded relPathForFilter then
        processFiles tok config startPath vcsIg readFn c1 rest parts
      else if (match vcsIg with
               | some pats => ignoresList pats (splitSlash relPathForFilter)
               | none => false) then
        processFiles tok config startPath vcsIg readFn c1 rest parts
      else if ignoresList (mainFilterPatterns config) (splitSlash relPathForFilter) then
        processFiles tok config startPath vcsIg readFn c1 rest parts
      else
        processFiles tok config startPath vcsIg readFn c1 rest
          (parts ++ [fileSegment config startPath readFn f])

/-- Files surviving the spec-side exclusion predicate, in discovery
order. -/
def includedFiles (config : MergedSheafyConfig) (vcsPats : List Str)
    (files : List AbsPath) : List AbsPath :=
  files.filter (fun f => !(excludedSpec config vcsPats (relFilterOf config f)))

/-- Spec-side rendered segments: one per included file, in discovery
order. -/
def segmentsOf (config : MergedSheafyConfig) (startPath : AbsPath) (vcsPats : List Str)
    (readFn : AbsPath → Except Str Str) (files : List AbsPath) : List Str :=
  (includedFiles config vcsPats files).map (fileSegment config startPath readFn)

/-- A static snapshot of one directory entry as traversal sees it: a
plain file, or a directory with its name, whether `readdir` succeeds on
it, and its children. -/
inductive FSEntry where
  | file (name : Str)
  | dir (name : Str) (readdirOk : Bool) (children : List FSEntry)

/-- The fixed set of directory names pruned without descending
(`src/fileProcessor.ts` line 51). -/
def prunedDirNames : List Str :=
  [str ".git", str "node_modules", str "target", str "build", str "dist"]

/-- The entry loop of `getAllFilesRecursive` (`src/fileProcessor.ts`
lines 45-58): poll the token before each entry; push files; prune the
fixed directory names; otherwise recurse (which itself polls the token
before its `readdir`, `readdir` failure skipping the subtree), then
continue with the siblings carrying the accumulated file list. -/
def travList (tok : Option Nat) :
    Nat → AbsPath → List FSEntry → List AbsPath → Except Unit (Nat × List AbsPath)
  | cnt, _, [], acc => .ok (cnt, acc)
  | cnt, dirPath, e :: rest, acc =>
    match checkTok tok cnt with
    | .error u => .error u
    | .ok c1 =>
      match e with
      | .file n => travList tok c1 dirPath rest (acc ++ [dirPath ++ [n]])
      | .dir n rok ch =>
        if prunedDirNames.contains n then travList tok c1 dirPath rest acc
        else
          match checkTok tok c1 with
          | .error u => .error u
          | .ok c2 =>
            if rok then
              match travList tok c2 (dirPath ++ [n]) ch acc with
              | .error u => .error u
              | .ok s => travList tok s.1 dirPath rest s.2
            else travList tok c2 dirPath rest acc
termination_by _cnt _dirPath es _acc => sizeOf es
decreasing_by all_goals (simp_wf <;> omega)

/-- The top-level `getAllFilesRecursive` call (`src/fileProcessor.ts`
lines 33-60) on the start directory: poll the token, then read the
directory (a failure yields the empty accumulator) and walk its
entries. -/
def getAllFilesRecursive (tok : Option Nat) (cnt : Nat) (dirPath : AbsPath)
    (readdirOk : Bool) (children : List FSEntry) : Except Unit (Nat × List AbsPath) :=
  match checkTok tok cnt with
  | .error u => .error u
  | .ok c1 =>
    if readdirOk then travList tok c1 dirPath children [] else .ok (c1, [])

/-- Result type tag of one export destination attempt. -/
inductive RType where
  | clipboard
  | tempTab
  | file
deriving DecidableEq

/-- `ExportResultDetails` (`src/fileProcessor.ts` lines 9-14). -/
structure ExportResultDetails where
  filePath : Option Str := none
  type : RType
  success : Bool
  message : Option Str := none
deriving DecidableEq

/-- Destination-side effect oracles: clipboard write, transient tab
open, recursive mkdir, file write.  Each may fail with a message. -/
structure Env where
  clipboardWrite : Str → Except Str Unit
  openTempTab : Str → Except Str Unit
  mkdirRecursive : AbsPath → Except Str Unit
  writeFileTo : AbsPath → Str → Except Str Unit

/-- Observable destination-side effects attempted by the dispatcher. -/
inductive Effect where
  | clipboardSet (text : Str)
  | tempTabOpened (text : Str)
  | mkdirAttempt (d : AbsPath)
  | fileWriteAttempt (p : AbsPath) (text : Str)
deriving DecidableEq

/-- `path.relative(basePath, outputFilePath) || config.bundle_name`
(`src/fileProcessor.ts` line 228). -/
def relOutputOf (config : MergedSheafyConfig) (outPath : AbsPath) : Str :=
  let r := relStr config.basePath outPath
  if r = [] then config.bundle_name else r

/-- One destination attempt with its per-destination catch
(`src/fileProcessor.ts` lines 201-236), returning the pushed
`ExportResultDetails` and the effects attempted. -/
def attemptDest (env : Env) (config : MergedSheafyConfig) (finalOutput : Str) :
    Dest → ExportResultDetails × List Effect
  | .clipboard =>
    (match env.clipboardWrite finalOutput with
     | .ok _ => { type := .clipboard, success := true }
     | .error m => { type := .clipboard, success := false, message := some m },
     [.clipboardSet finalOutput])
  | .tempTab =>
    (match env.openTempTab finalOutput with
     | .ok _ => { type := .tempTab, success := true }
     | .error m => { type := .tempTab, success := false, message := some m },
     [.tempTabOpened finalOutput])
  | .rootDir =>
    let outputFilePath := joinAbs config.basePath (splitSlash config.bundle_name)
    (match env.writeFileTo outputFilePath finalOutput with
     | .ok _ =>
       { filePath := some (relOutputOf config outputFilePath), type := .file, success := true }
     | .error m => { type := .file, success := false, message := some m },
     [.fileWriteAttempt outputFilePath finalOutput])
  | .workingDir =>
    let targetDir := config.working_dir
    let outputFilePath := joinAbs targetDir (splitSlash config.bundle_name)
    if targetDir ≠ config.basePath then
      match env.mkdirRecursive targetDir with
      | .error m =>
        ({ type := .file, success := false,
           message := some (str "Failed to create working directory " ++ absStr targetDir
             ++ str ": " ++ m) },
         [.mkdirAttempt targetDir])
      | .ok _ =>
        (match env.writeFileTo outputFilePath finalOutput with
         | .ok _ =>
           { filePath := some (relOutputOf config outputFilePath), type := .file, success := true }
         | .error m => { type := .file, success := false, message := some m },
         [.mkdirAttempt targetDir, .fileWriteAttempt outputFilePath finalOutput])
    else
      (match env.writeFileTo outputFilePath finalOutput with
       | .ok _ =>
         { filePath := some (relOutputOf config outputFilePath), type := .file, success := true }
       | .error m => { type := .file, success := false, message := some m },
       [.fileWriteAttempt outputFilePath finalOutput])

/-- The destination loop (`src/fileProcessor.ts` lines 198-237): poll
the token before each destination (a cancellation propagates, carrying
the effects already attempted), then attempt the destination and push
its result; per-destination failures never escape the loop. -/
def dispatchLoop (tok : Option Nat) (env : Env) (config : MergedSheafyConfig)
    (finalOutput : Str) :
    Nat → List Dest → List ExportResultDetails → List Effect →
    Except (List Effect) (Nat × List ExportResultDetails × List Effect)
  | cnt, [], results, effs => .ok (cnt, results, effs)
  | cnt, d :: rest, results, effs =>
    match checkTok tok cnt with
    | .error _ => .error effs
    | .ok c1 =>
      let r := attemptDest env config finalOutput d
      dispatchLoop tok env config finalOutput c1 rest (results ++ [r.1]) (effs ++ r.2)

/-- The single failure result returned when the start path cannot be
accessed or is not a directory (`src/fileProcessor.ts` line 107). -/
def startPathErrorResult (msg : Str) : ExportResultDetails :=
  { type := .file, success := false,
    message := some (str "Error accessing start path: " ++ msg) }

/-- Outcome of the pre-dispatch phases: an early start-path error result
list, or the assembled final text. -/
inductive PreOutcome where
  | earlyError (results : List ExportResultDetails)
  | output (finalOutput : Str)
deriving DecidableEq

/-- The pre-dispatch pipeline of `exportContent` (`src/fileProcessor.ts`
lines 92-196): initial poll, start-path stat, traversal, post-discovery
and post-filter-build polls, prologue, the filter-and-format loop, the
pre-join poll, epilogue, the blank-line join, and the pre-dispatch poll.
The VCS matcher is built from the `.gitignore` pattern list only when
the effective flag is set. -/
def pipelinePre (tok : Option Nat) (config : MergedSheafyConfig) (startPath : AbsPath)
    (rootStat : Except Str FSEntry) (vcsPats : List Str)
    (readFn : AbsPath → Except Str Str) : Except Unit (Nat × PreOutcome) :=
  match checkTok tok 0 with
  | .error u => .error u
  | .ok c1 =>
    match rootStat with
    | .error msg => .ok (c1, .earlyError [startPathErrorResult msg])
    | .ok (.file _) =>
      .ok (c1, .earlyError [startPathErrorResult
        (str "Start path '" ++ absStr startPath ++ str "' is not a directory.")])
    | .ok (.dir _ rok children) =>
      match getAllFilesRecursive tok c1 startPath rok children with
      | .error u => .error u
      | .ok s2 =>
        match checkTok tok s2.1 with
        | .error u => .error u
        | .ok c3 =>
          let vcsIg : Option (List Str) :=
            if config.use_gitignore then some vcsPats else none
          match checkTok tok c3 with
          | .error u => .error u
          | .ok c4 =>
            let parts0 : List Str := if config.prologue ≠ [] then [config.prologue] else []
            match processFiles tok config startPath vcsIg readFn c4 s2.2 parts0 with
            | .error u => .error u
            | .ok s5 =>
              match checkTok tok s5.1 with
              | .error u => .error u
              | .ok c6 =>
                let parts2 := s5.2 ++ (if config.epilogue ≠ [] then [config.epilogue] else [])
                let finalOutput := joinSep (str "\n\n") parts2
                match checkTok tok c6 with
                | .error u => .error u
                | .ok c7 => .ok (c7, .output finalOutput)

/-- `exportContent` (`src/fileProcessor.ts` lines 85-240) end to end:
the pre-dispatch pipeline followed by the destination loop.  The error
branch is a propagating `CancellationError`, carrying the destination
effects already attempted (none when cancelled before dispatch). -/
def exportContent (tok : Option Nat) (env : Env) (config : MergedSheafyConfig)
    (startPath : AbsPath) (rootStat : Except Str FSEntry) (vcsPats : List Str)
    (readFn : AbsPath → Except Str Str) :
    Except (List Effect) (List ExportResultDetails × List Effect) :=
  match pipelinePre tok config startPath rootStat vcsPats readFn with
  | .error _ => .error []
  | .ok (_, .earlyError results) => .ok (results, [])
  | .ok (c7, .output finalOutput) =>
    match dispatchLoop tok env config finalOutput c7 config.exportDestinations [] [] with
    | .error effs => .error effs
    | .ok s => .ok (s.2.1, s.2.2)

/-- A minimal sample configuration used by concrete instances: root
`/p`, default bundle name, no extra ignore patterns, clipboard only;
the relativize flag is the parameter. -/
def sampleConfig (basePath : AbsPath) (flag : Bool) : MergedSheafyConfig :=
  { basePath := basePath
    bundle_name := str "project_bundle.md"
    working_dir := basePath
    use_gitignore := false
    ignore_patterns_array := []
    prologue := []
    epilogue := []
    exportFormatTemplate := str "### \x7brelpath\x7d\n\n```\x7blang\x7d\n\x7bcontent\x7d\n````\n"
    exportDestinations := [Dest.clipboard]
    folderExportPathRelativeToClickedFolder := flag }

/-- Sample configuration with a prologue and an epilogue, for the
assembly instance. -/
def cfgC5 : MergedSheafyConfig :=
  { basePath := [str "p"]
    bundle_name := str "b.md"
    working_dir := [str "p"]
    use_gitignore := false
    ignore_patterns_array := []
    prologue := str "P"
    epilogue := str "E"
    exportFormatTemplate := str "<\x7brelpath\x7d|\x7blang\x7d|\x7bcontent\x7d>"
    exportDestinations := [Dest.clipboard]
    folderExportPathRelativeToClickedFolder := false }

/-- Host-level settings sample: respect the VCS ignore file, clipboard
destination only. -/
def vsW : SheafyVSCodeSettings :=
  { respectGitignore := true
    exportDestinations := [Dest.clipboard]
    exportFormatTemplate := []
    folderExportPathRelativeToClickedFolder := false }

/-- Config for the dispatcher instance: clipboard then root-directory
file, working directory `/p/out` distinct from the root `/p`. -/
def cfgC7 : MergedSheafyConfig :=
  { basePath := [str "p"]
    bundle_name := str "project_bundle.md"
    working_dir := [str "p", str "out"]
    use_gitignore := false
    ignore_patterns_array := []
    prologue := []
    epilogue := []
    exportFormatTemplate := []
    exportDestinations := [Dest.clipboard, Dest.rootDir]
    folderExportPathRelativeToClickedFolder := false }

/-- Environment in which the clipboard write and the mkdir fail but file
writes succeed. -/
def envC7 : Env :=
  { clipboardWrite := fun _ => .error (str "boom")
    openTempTab := fun _ => .ok ()
    mkdirRecursive := fun _ => .error (str "denied")
    writeFileTo := fun _ _ => .ok () }

/-- Two discovered files under `/p` for the read-failure instance. -/
def filesC6 : List AbsPath := [[str "p", str "a.ts"], [str "p", str "b.ts"]]

/-- Read oracle failing exactly on `/p/b.ts`. -/
def readC6 : AbsPath → Except Str Str :=
  fun f => if f = [str "p", str "b.ts"] then .error (str "EACCES") else .ok (str "A")

/-- Config whose caller-supplied ignore patterns re-include the bundle
file through a negation pattern. -/
def cfgC2 : MergedSheafyConfig :=
  { basePath := [str "p"]
    bundle_name := str "project_bundle.md"
    working_dir := [str "p"]
    use_gitignore := false
    ignore_patterns_array := [str "!project_bundle.md"]
    prologue := []
    epilogue := []
    exportFormatTemplate := []
    exportDestinations := [Dest.clipboard]
    folderExportPathRelativeToClickedFolder := false }

/-- Config with ordinary (negation-free) caller-supplied ignore
patterns and a working directory distinct from the root. -/
def cfgC2W : MergedSheafyConfig :=
  { basePath := [str "p"]
    bundle_name := str "project_bundle.md"
    working_dir := [str "p", str "out"]
    use_gitignore := false
    ignore_patterns_array := [str "node_modules"]
    prologue := []
    epilogue := []
    exportFormatTemplate := []
    exportDestinations := [Dest.clipboard]
    folderExportPathRelativeToClickedFolder := false }

/-- A destination environment in which every effect succeeds. -/
def envW : Env :=
  { clipboardWrite := fun _ => .ok ()
    openTempTab := fun _ => .ok ()
    mkdirRecursive := fun _ => .ok ()
    writeFileTo := fun _ _ => .ok () }

/-! ### Helper lemmas -/

theorem checkTok_none (cnt : Nat) : checkTok none cnt = .ok (cnt + 1) := rfl

theorem checkTok_some (k cnt : Nat) :
    checkTok (some k) cnt = if k ≤ cnt then .error () else .ok (cnt + 1) := by
  by_cases h : k ≤ cnt <;> simp [checkTok, isCancelled, h]

theorem processFiles_none (config : MergedSheafyConfig) (sp : AbsPath)
    (vcsIg : Option (List Str)) (readFn : AbsPath → Except Str Str) :
    ∀ (files : List AbsPath) (cnt : Nat) (parts : List Str),
    processFiles none config sp vcsIg readFn cnt files parts
      = .ok (cnt + files.length, parts ++ (files.filter (fun f =>
          !(gitMetaExcluded (relFilterOf config f)
            || (match vcsIg with
                | some pats => ignoresList pats (splitSlash (relFilterOf config f))
                | none => false)
            || ignoresList (mainFilterPatterns config) (splitSlash (relFilterOf config f))))).map
          (fileSegment config sp readFn)) := by
  rcases vcsIg with _ | pats
  · intro files
    induction files with
    | nil => intro cnt parts; simp [processFiles]
    | cons f rest ih =>
      intro cnt parts
      rw [processFiles, checkTok_none]
      simp only [ih]
      by_cases h1 : gitMetaExcluded (relFilterOf config f) = true <;>
        by_cases h3 :
          ignoresList (mainFilterPatterns config) (splitSlash (relFilterOf config f)) = true <;>
        simp [h1, h3, List.filter_cons, List.append_assoc] <;> omega
  · intro files
    induction files with
    | nil => intro cnt parts; simp [processFiles]
    | cons f rest ih =>
      intro cnt parts
      rw [processFiles, checkTok_none]
      simp only [ih]
      by_cases h1 : gitMetaExcluded (relFilterOf config f) = true <;>
        by_cases h2 : ignoresList pats (splitSlash (relFilterOf config f)) = true <;>
        by_cases h3 :
          ignoresList (mainFilterPatterns config) (splitSlash (relFilterOf config f)) = true <;>
        simp [h1, h2, h3, List.filter_cons, List.append_assoc] <;> omega

theorem dispatchLoop_none (env : Env) (config : MergedSheafyConfig) (finalOutput : Str) :
    ∀ (dests : List Dest) (cnt : Nat) (results : List ExportResultDetails)
      (effs : List Effect),
    dispatchLoop none env config finalOutput cnt dests results effs
      = .ok (cnt + dests.length,
          results ++ dests.map (fun d => (attemptDest env config finalOutput d).1),
          effs ++ (dests.map (fun d => (attemptDest env config finalOutput d).2)).flatten) := by
  intro dests
  induction dests with
  | nil => intro cnt results effs; simp [dispatchLoop]
  | cons d rest ih =>
    intro cnt results effs
    rw [dispatchLoop, checkTok_none]
    simp [ih, List.append_assoc]
    omega

theorem replGo_skip (pat repl : Str) :
    ∀ (xs ys pre : Str),
    replGo pat repl xs.length pre (xs ++ ys) = replGo pat repl 0 (xs.reverse ++ pre) ys := by
  intro xs
  induction xs with
  | nil => intro ys pre; simp
  | cons x xs ih =>
    intro ys pre
    have := ih ys (x :: pre)
    simpa [replGo, List.append_assoc] using this

theorem isPre_append_self {α : Type} [DecidableEq α] :
    ∀ (xs ys : List α), isPre xs (xs ++ ys) = true := by
  intro xs
  induction xs with
  | nil => intro ys; rfl
  | cons x xs ih => intro ys; simp [isPre, ih]

theorem isPre_self_refl {α : Type} [DecidableEq α] : ∀ (xs : List α), isPre xs xs = true := by
  intro xs
  induction xs with
  | nil => rfl
  | cons x xs ih => simp [isPre, ih]

theorem getSubGo_no_dollar (m b a : Str) :
    ∀ (s : Str), ('$' : Char) ∉ s → getSubGo m b a false s = s := by
  intro s
  induction s with
  | nil => intro _; rfl
  | cons c rest ih =>
    intro h
    have hc : ¬c = '$' := fun hx => h (by simp [hx])
    rw [getSubGo, if_neg hc, ih (fun hx => h (by simp [hx]))]

theorem getSubstitution_no_dollar (m b a : Str) :
    ∀ (s : Str), ('$' : Char) ∉ s → getSubstitution m b a s = s := by
  intro s h
  rw [getSubstitution]
  exact getSubGo_no_dollar m b a s h

theorem occurs_eq_false_replGo (pat repl : Str) :
    ∀ (s pre : Str), occurs pat s = false → replGo pat repl 0 pre s = s := by
  intro s
  induction s with
  | nil => intro pre _; rfl
  | cons c rest ih =>
    intro pre h
    rw [occurs, Bool.or_eq_false_iff] at h
    rw [replGo]
    simp only [h.1, Bool.false_eq_true, and_false, if_false, ne_eq]
    rw [ih (c :: pre) h.2]

theorem occurs_eq_false_replaceAll (pat repl : Str) :
    ∀ (s : Str), occurs pat s = false → replaceAll s pat repl = s := by
  intro s h
  rw [replaceAll]
  exact occurs_eq_false_replGo pat repl s [] h

theorem replaceAll_self_no_dollar (pat repl : Str) (h : pat ≠ [])
    (hd : ('$' : Char) ∉ repl) : replaceAll pat pat repl = repl := by
  rcases pat with _ | ⟨p, ps⟩
  · exact absurd rfl h
  · rw [replaceAll, replGo, if_pos ⟨h, isPre_self_refl (p :: ps)⟩]
    have h1 : List.drop (p :: ps).length (p :: ps) = [] := by simp
    have h2 : (p :: ps).length - 1 = ps.length := by simp
    rw [h1, h2]
    have h3 : replGo (p :: ps) repl ps.length [p] ps = [] := by
      have hs := replGo_skip (p :: ps) repl ps [] [p]
      rw [List.append_nil] at hs
      rw [hs]
      rfl
    rw [h3, List.reverse_nil, getSubstitution_no_dollar _ _ _ _ hd, List.append_nil]

theorem processFiles_none_spec (config : MergedSheafyConfig) (sp : AbsPath)
    (vcsPats : List Str) (readFn : AbsPath → Except Str Str) (files : List AbsPath)
    (cnt : Nat) (parts : List Str) :
    processFiles none config sp (if config.use_gitignore then some vcsPats else none)
        readFn cnt files parts
      = .ok (cnt + files.length, parts ++ segmentsOf config sp vcsPats readFn files) := by
  rw [processFiles_none]
  simp only [segmentsOf, includedFiles]
  have hpred : ∀ f : AbsPath,
      (!(gitMetaExcluded (relFilterOf config f)
        || (match (if config.use_gitignore then some vcsPats else none : Option (List Str)) with
            | some pats => ignoresList pats (splitSlash (relFilterOf config f))
            | none => false)
        || ignoresList (mainFilterPatterns config) (splitSlash (relFilterOf config f))))
      = !(excludedSpec config vcsPats (relFilterOf config f)) := by
    intro f
    by_cases h : config.use_gitignore <;> simp [excludedSpec, h]
  simp only [hpred]

/-! ### Claim theorems -/

/-- C1: a discovered file is excluded from the bundle iff its
root-relative filter path is the VCS-metadata directory or lies under
it, or the VCS ignore set matches it (the VCS set being consulted only
when the effective use-gitignore flag is true), or the tool ignore set
matches it — OR semantics across the two independently built sets: the
sequential `continue` structure of the filter loop produces exactly the
files whose filter path fails the `excludedSpec` disjunction, in
discovery order. -/
theorem C1_or_semantics (config : MergedSheafyConfig) (sp : AbsPath) (vcsPats : List Str)
    (readFn : AbsPath → Except Str Str) (files : List AbsPath) (cnt : Nat)
    (parts : List Str) :
    processFiles none config sp (if config.use_gitignore then some vcsPats else none)
        readFn cnt files parts
      = .ok (cnt + files.length, parts ++ segmentsOf config sp vcsPats readFn files) :=
  processFiles_none_spec config sp vcsPats readFn files cnt parts

/-- C4 counterexample: the claim "placeholder-shaped text occurring
inside a substituted value is not itself substituted" fails: rendering
the template `\x7brelpath\x7d` with relpath value `\x7bcontent\x7d` and content value `X`
yields `X` — the `\x7bcontent\x7d` text inserted by the first pass is consumed
by the third — whereas the claim predicts the output `\x7bcontent\x7d`. -/
theorem C4_counterexample :
    renderTemplate (str "\x7brelpath\x7d") (str "\x7bcontent\x7d") (str "L") (str "X") = str "X"
      ∧ str "X" ≠ str "\x7bcontent\x7d" := by
  constructor
  · decide
  · decide

/-- C4 (amended): rendering applies three global single-pass
replacements sequentially, in the order relpath, lang, content, each
with JS string-replacement semantics: a template containing none of the
three placeholders (in particular one with only unknown placeholders)
is returned verbatim; a placeholder inside an earlier-substituted value
is substituted by the later passes (a dollar-free relpath value is then
processed whole by the lang and content passes); a pass never rescans
its own substituted value, and a value without `$` characters is
inserted as-is — but the replacement value is interpreted for JS
`$`-sequences, so for instance the content value `$&` is replaced by
the matched `\x7bcontent\x7d` placeholder itself. -/
theorem C4_sequential (t r l c : Str) :
    (occurs plRelpath t = false → occurs plLang t = false → occurs plContent t = false →
      renderTemplate t r l c = t)
    ∧ (('$' : Char) ∉ r →
        renderTemplate plRelpath r l c = replaceAll (replaceAll r plLang l) plContent c)
    ∧ (('$' : Char) ∉ c → replaceAll plContent plContent c = c)
    ∧ replaceAll plContent plContent (str "$&") = plContent
    ∧ renderTemplate t r l c
        = replaceAll (replaceAll (replaceAll t plRelpath r) plLang l) plContent c := by
  refine ⟨?_, ?_, ?_, by decide, rfl⟩
  · intro h1 h2 h3
    rw [renderTemplate, occurs_eq_false_replaceAll _ _ _ h1,
      occurs_eq_false_replaceAll _ _ _ h2, occurs_eq_false_replaceAll _ _ _ h3]
  · intro hd
    rw [renderTemplate, replaceAll_self_no_dollar _ _ (by decide) hd]
  · intro hd
    exact replaceAll_self_no_dollar _ _ (by decide) hd

/-- C4 witness: a template made only of unknown placeholders is rendered
verbatim. -/
theorem C4_witness :
    renderTemplate (str "hello \x7bunknown\x7d") (str "R") (str "L") (str "C")
      = str "hello \x7bunknown\x7d" :=
  (C4_sequential (str "hello \x7bunknown\x7d") (str "R") (str "L") (str "C")).1
    (by decide) (by decide) (by decide)

/-- C3: the template path is start-relative iff the export starts from a
proper subdirectory and the relativize flag is on, root-relative
otherwise; the ignore-matching path is always root-relative.  With
root `/p`, start `/p/sub` and file `/p/sub/a.ts` the template path is
`a.ts` under the flag and `sub/a.ts` without it, while the filter path
is `sub/a.ts` in both cases. -/
theorem C3_relativization :
    (∀ (config : MergedSheafyConfig) (sp f : AbsPath),
      relTemplateOf config sp f
        = if sp ≠ config.basePath ∧ config.folderExportPathRelativeToClickedFolder then
            relStr sp f
          else relStr config.basePath f)
    ∧ (∀ (config : MergedSheafyConfig) (f : AbsPath),
        relFilterOf config f = relStr config.basePath f)
    ∧ relTemplateOf (sampleConfig [str "p"] true) [str "p", str "sub"]
        [str "p", str "sub", str "a.ts"] = str "a.ts"
    ∧ relTemplateOf (sampleConfig [str "p"] false) [str "p", str "sub"]
        [str "p", str "sub", str "a.ts"] = str "sub/a.ts"
    ∧ relFilterOf (sampleConfig [str "p"] true) [str "p", str "sub", str "a.ts"]
        = str "sub/a.ts"
    ∧ relFilterOf (sampleConfig [str "p"] false) [str "p", str "sub", str "a.ts"]
        = str "sub/a.ts" :=
  ⟨fun _ _ _ => rfl, fun _ _ => rfl, by decide, by decide, by decide, by decide⟩

/-- C5: the assembled document is the blank-line join of the prologue
(included only when non-empty), the rendered segments in discovery
order, and the epilogue (included only when non-empty); the join puts
exactly the two-newline separator between consecutive parts and nothing
else. -/
theorem C5_assembly :
    (∀ (sep p : Str) (parts : List Str), parts ≠ [] →
      joinSep sep (p :: parts) = p ++ sep ++ joinSep sep parts)
    ∧ ∀ (config : MergedSheafyConfig) (sp : AbsPath) (nm : Str) (rok : Bool)
        (children : List FSEntry) (vcsPats : List Str) (readFn : AbsPath → Except Str Str)
        (c2 : Nat) (files : List AbsPath),
      getAllFilesRecursive none 1 sp rok children = .ok (c2, files) →
      pipelinePre none config sp (.ok (.dir nm rok children)) vcsPats readFn
        = .ok (c2 + files.length + 4,
            .output (joinSep (str "\n\n")
              ((if config.prologue ≠ [] then [config.prologue] else [])
                ++ segmentsOf config sp vcsPats readFn files
                ++ (if config.epilogue ≠ [] then [config.epilogue] else [])))) := by
  constructor
  · intro sep p parts hne
    cases parts with
    | nil => exact absurd rfl hne
    | cons q rest => rfl
  · intro config sp nm rok children vcsPats readFn c2 files h
    rw [pipelinePre, checkTok_none]
    simp only [h, checkTok_none, processFiles_none_spec]
    simp [List.append_assoc]
    omega

/-- C5 witness: a one-file run with prologue `P` and epilogue `E`
assembles prologue, segment and epilogue joined by blank lines. -/
theorem C5_witness :
    joinSep (str "\n\n") [str "P", str "E"] = str "P" ++ str "\n\n" ++ str "E"
    ∧ pipelinePre none cfgC5 [str "p"]
        (.ok (.dir (str "p") true [FSEntry.file (str "a.ts")])) []
        (fun _ => .ok (str "body"))
      = .ok (3 + 1 + 4, .output (joinSep (str "\n\n")
          ((if cfgC5.prologue ≠ [] then [cfgC5.prologue] else [])
            ++ segmentsOf cfgC5 [str "p"] [] (fun _ => .ok (str "body"))
                [[str "p", str "a.ts"]]
            ++ (if cfgC5.epilogue ≠ [] then [cfgC5.epilogue] else [])))) := by
  have h : getAllFilesRecursive none 1 [str "p"] true [FSEntry.file (str "a.ts")]
      = .ok (3, [[str "p", str "a.ts"]]) := by
    simp [getAllFilesRecursive, travList, checkTok, isCancelled]
  exact ⟨C5_assembly.1 (str "\n\n") (str "P") [str "E"] (by decide),
    C5_assembly.2 cfgC5 [str "p"] (str "p") true [FSEntry.file (str "a.ts")] []
      (fun _ => .ok (str "body")) 3 [[str "p", str "a.ts"]] h⟩

theorem travList_cancel :
    ∀ (cnt : Nat) (d : AbsPath) (es : List FSEntry) (acc : List AbsPath),
    ∃ s : Nat × List AbsPath,
      travList none cnt d es acc = .ok s ∧ cnt ≤ s.1 ∧
      ∀ k, cnt ≤ k →
        travList (some k) cnt d es acc = if s.1 ≤ k then .ok s else .error () := by
  intro cnt d es acc
  refine travList.induct none
    (fun cnt d es acc => ∃ s : Nat × List AbsPath,
      travList none cnt d es acc = .ok s ∧ cnt ≤ s.1 ∧
      ∀ k, cnt ≤ k →
        travList (some k) cnt d es acc = if s.1 ≤ k then .ok s else .error ())
    ?_ ?_ ?_ ?_ ?_ ?_ ?_ ?_ cnt d es acc
  · intro cnt d acc
    refine ⟨(cnt, acc), by rw [travList], le_refl _, fun k hk => ?_⟩
    rw [travList, if_pos hk]
  · intro cnt d e rest acc u hu
    rw [checkTok_none] at hu
    exact absurd hu (by simp)
  · intro cnt d rest acc c1 hc n ih
    rw [checkTok_none] at hc
    obtain rfl : c1 = cnt + 1 := by injection hc with h; omega
    obtain ⟨s, hn, hm, ht⟩ := ih
    refine ⟨s, ?_, by omega, fun k hk => ?_⟩
    · rw [travList, checkTok_none]
      exact hn
    · rw [travList, checkTok_some]
      by_cases hkc : k ≤ cnt
      · rw [if_pos hkc]
        rw [if_neg (by omega)]
      · rw [if_neg hkc]
        exact ht k (by omega)
  · intro cnt d rest acc c1 hc n rok ch hpr ih
    rw [checkTok_none] at hc
    obtain rfl : c1 = cnt + 1 := by injection hc with h; omega
    obtain ⟨s, hn, hm, ht⟩ := ih
    refine ⟨s, ?_, by omega, fun k hk => ?_⟩
    · rw [travList, checkTok_none]
      simp only [hpr, if_pos]
      exact hn
    · rw [travList, checkTok_some]
      by_cases hkc : k ≤ cnt
      · rw [if_pos hkc]
        rw [if_neg (by omega)]
      · rw [if_neg hkc]
        simp only [hpr, if_pos]
        exact ht k (by omega)
  · intro cnt d rest acc c1 hc n rok ch hpr u hu
    rw [checkTok_none] at hu
    exact absurd hu (by simp)
  · intro cnt d rest acc c1 hc n ch hpr c2 hc2 u hu ihch
    obtain ⟨s1, hn1, _, _⟩ := ihch
    rw [hn1] at hu
    exact absurd hu (by simp)
  · intro cnt d rest acc c1 hc n ch hpr c2 hc2 sr hsr ihch ihrest
    rw [checkTok_none] at hc
    obtain rfl : c1 = cnt + 1 := by injection hc with h; omega
    rw [checkTok_none] at hc2
    obtain rfl : c2 = cnt + 1 + 1 := by injection hc2 with h; omega
    obtain ⟨s1, hn1, hm1, ht1⟩ := ihch
    have hss : s1 = sr := by
      rw [hn1] at hsr
      injection hsr
    subst hss
    have hpr2 : ¬n ∈ prunedDirNames := by simpa using hpr
    obtain ⟨s2, hn2, hm2, ht2⟩ := ihrest
    refine ⟨s2, ?_, by omega, fun k hk => ?_⟩
    · rw [travList, checkTok_none]
      simp [hpr2, checkTok_none, hn1, hn2]
    · rw [travList]
      simp only [checkTok_some]
      by_cases hkc : k ≤ cnt
      · have hs2 : ¬s2.1 ≤ k := by omega
        simp [hkc, hs2]
      · by_cases hkc2 : k ≤ cnt + 1
        · have hs2 : ¬s2.1 ≤ k := by omega
          simp [hkc, hkc2, hpr2, hs2]
        · simp [hkc, hkc2, hpr2, ht1 k (by omega)]
          by_cases hks1 : s1.1 ≤ k
          · simp only [hks1, ite_true]
            exact ht2 k (by omega)
          · have hs2 : ¬s2.1 ≤ k := by omega
            simp [hks1, hs2]
  · intro cnt d rest acc c1 hc n rok ch hpr c2 hc2 hrok ih
    rw [checkTok_none] at hc
    obtain rfl : c1 = cnt + 1 := by injection hc with h; omega
    rw [checkTok_none] at hc2
    obtain rfl : c2 = cnt + 1 + 1 := by injection hc2 with h; omega
    have hpr2 : ¬n ∈ prunedDirNames := by simpa using hpr
    obtain ⟨s, hn, hm, ht⟩ := ih
    refine ⟨s, ?_, by omega, fun k hk => ?_⟩
    · rw [travList, checkTok_none]
      simp [hpr2, checkTok_none, hrok, hn]
    · rw [travList]
      simp only [checkTok_some]
      by_cases hkc : k ≤ cnt
      · have hs : ¬s.1 ≤ k := by omega
        simp [hkc, hs]
      · by_cases hkc2 : k ≤ cnt + 1
        · have hs : ¬s.1 ≤ k := by omega
          simp [hkc, hkc2, hpr2, hs]
        · simp [hkc, hkc2, hpr2, hrok, ht k (by omega)]

theorem getAllFilesRecursive_cancel (cnt : Nat) (d : AbsPath) (rok : Bool)
    (ch : List FSEntry) :
    ∃ s : Nat × List AbsPath,
      getAllFilesRecursive none cnt d rok ch = .ok s ∧ cnt ≤ s.1 ∧
      ∀ k, cnt ≤ k →
        getAllFilesRecursive (some k) cnt d rok ch
          = if s.1 ≤ k then .ok s else .error () := by
  cases rok with
  | false =>
    refine ⟨(cnt + 1, []), ?_, by omega, fun k hk => ?_⟩
    · simp [getAllFilesRecursive, checkTok_none]
    · rw [getAllFilesRecursive, checkTok_some]
      by_cases hkc : k ≤ cnt
      · have h2 : ¬cnt + 1 ≤ k := by omega
        simp [hkc, h2]
      · have h2 : cnt + 1 ≤ k := by omega
        simp [hkc, h2]
  | true =>
    obtain ⟨s, hn, hm, ht⟩ := travList_cancel (cnt + 1) d ch []
    refine ⟨s, ?_, by omega, fun k hk => ?_⟩
    · rw [getAllFilesRecursive, checkTok_none]
      simpa using hn
    · rw [getAllFilesRecursive, checkTok_some]
      by_cases hkc : k ≤ cnt
      · have h2 : ¬s.1 ≤ k := by omega
        simp [hkc, h2]
      · simp only [hkc, ite_false, if_neg]
        simpa using ht k (by omega)

theorem processFiles_cancel (config : MergedSheafyConfig) (sp : AbsPath)
    (vcsIg : Option (List Str)) (readFn : AbsPath → Except Str Str) :
    ∀ (files : List AbsPath) (cnt : Nat) (parts : List Str) (k : Nat), cnt ≤ k →
    processFiles (some k) config sp vcsIg readFn cnt files parts
      = if cnt + files.length ≤ k then
          processFiles none config sp vcsIg readFn cnt files parts
        else .error () := by
  rcases vcsIg with _ | pats
  · intro files
    induction files with
    | nil => intro cnt parts k hk; simp [processFiles, hk]
    | cons f rest ih =>
      intro cnt parts k hk
      simp only [List.length_cons]
      rw [processFiles, processFiles, checkTok_some, checkTok_none]
      by_cases hkc : k ≤ cnt
      · have hcond : ¬cnt + (rest.length + 1) ≤ k := by omega
        simp [hkc, hcond]
      · have hk1 : cnt + 1 ≤ k := by omega
        have harith : cnt + 1 + rest.length = cnt + (rest.length + 1) := by omega
        rw [if_neg hkc]
        by_cases h1 : gitMetaExcluded (relFilterOf config f) = true <;>
          by_cases h3 :
            ignoresList (mainFilterPatterns config) (splitSlash (relFilterOf config f))
              = true <;>
        · simp only [h1, h3, ite_true, ite_false, Bool.false_eq_true, if_true, if_false]
          rw [ih _ _ _ hk1, harith]
  · intro files
    induction files with
    | nil => intro cnt parts k hk; simp [processFiles, hk]
    | cons f rest ih =>
      intro cnt parts k hk
      simp only [List.length_cons]
      rw [processFiles, processFiles, checkTok_some, checkTok_none]
      by_cases hkc : k ≤ cnt
      · have hcond : ¬cnt + (rest.length + 1) ≤ k := by omega
        simp [hkc, hcond]
      · have hk1 : cnt + 1 ≤ k := by omega
        have harith : cnt + 1 + rest.length = cnt + (rest.length + 1) := by omega
        rw [if_neg hkc]
        by_cases h1 : gitMetaExcluded (relFilterOf config f) = true <;>
          by_cases h2 : ignoresList pats (splitSlash (relFilterOf config f)) = true <;>
          by_cases h3 :
            ignoresList (mainFilterPatterns config) (splitSlash (relFilterOf config f))
              = true <;>
        · simp only [h1, h2, h3, ite_true, ite_false, Bool.false_eq_true, if_true, if_false]
          rw [ih _ _ _ hk1, harith]

theorem pipelinePre_cancel (config : MergedSheafyConfig) (sp : AbsPath)
    (rootStat : Except Str FSEntry) (vcsPats : List Str)
    (readFn : AbsPath → Except Str Str) (c7 : Nat) (out : PreOutcome)
    (h : pipelinePre none config sp rootStat vcsPats readFn = .ok (c7, out)) :
    ∀ k, k < c7 →
      pipelinePre (some k) config sp rootStat vcsPats readFn = .error () := by
  intro k hk
  rw [pipelinePre] at h
  rw [pipelinePre, checkTok_some]
  by_cases hk0 : k ≤ 0
  · simp [hk0]
  rw [if_neg hk0]
  rw [checkTok_none] at h
  cases rootStat with
  | error msg =>
    simp only [Except.ok.injEq, Prod.mk.injEq] at h
    omega
  | ok entry =>
    cases entry with
    | file nm =>
      simp only [Except.ok.injEq, Prod.mk.injEq] at h
      omega
    | dir nm rok children =>
      dsimp only at h ⊢
      obtain ⟨s2, hs2, hm2, ht2⟩ := getAllFilesRecursive_cancel (0 + 1) sp rok children
      rw [hs2] at h
      simp only [checkTok_none] at h
      rw [processFiles_none] at h
      simp only [checkTok_none, Except.ok.injEq, Prod.mk.injEq] at h
      obtain ⟨hc7, -⟩ := h
      rw [ht2 k (by omega)]
      by_cases hs : s2.1 ≤ k
      · rw [if_pos hs]
        simp only [checkTok_some]
        by_cases hk2 : k ≤ s2.1
        · simp [hk2]
        · simp [hk2, checkTok_some]
          by_cases hk3 : k ≤ s2.1 + 1
          · simp [hk3]
          · simp [hk3, checkTok_some]
            rw [processFiles_cancel config sp _ readFn s2.2 (s2.1 + 1 + 1) _ k (by omega)]
            by_cases hk4 : s2.1 + 1 + 1 + s2.2.length ≤ k
            · rw [if_pos hk4, processFiles_none]
              simp [checkTok_some]
              by_cases hk5 : k ≤ s2.1 + 1 + 1 + s2.2.length
              · simp [hk5]
              · have hk6 : k ≤ s2.1 + 1 + 1 + s2.2.length + 1 := by omega
                simp [hk5, hk6, checkTok_some]
            · rw [if_neg hk4]
      · rw [if_neg hs]

/-- C8: if cancellation is requested at any poll moment strictly before
the pre-dispatch pipeline completes — the pipeline polls before the
start-path stat, before each directory read, before each directory
entry, before and after building the filters, before each file in the
filter loop, before the join and before dispatch — the run aborts with
a cancellation error, returns no (partial) result list, and performs no
destination effect whatsoever. -/
theorem C8_cancellation (config : MergedSheafyConfig) (sp : AbsPath)
    (rootStat : Except Str FSEntry) (vcsPats : List Str)
    (readFn : AbsPath → Except Str Str) (env : Env) (c7 : Nat) (out : PreOutcome)
    (h : pipelinePre none config sp rootStat vcsPats readFn = .ok (c7, out))
    (k : Nat) (hk : k < c7) :
    exportContent (some k) env config sp rootStat vcsPats readFn = .error [] := by
  rw [exportContent, pipelinePre_cancel config sp rootStat vcsPats readFn c7 out h k hk]

/-- C8 witness: cancelling at the very first poll of an otherwise
successful run aborts the export with no destination effects. -/
theorem C8_witness :
    exportContent (some 0) envW cfgC5 [str "p"] (.ok (.dir (str "p") true [])) []
        (fun _ => .ok []) = .error [] := by
  have h : pipelinePre none cfgC5 [str "p"] (.ok (.dir (str "p") true [])) []
      (fun _ => .ok []) = .ok (6, .output (str "P" ++ str "\n\n" ++ str "E")) := by
    simp +decide [pipelinePre, getAllFilesRecursive, travList, processFiles, checkTok,
      isCancelled, cfgC5, joinSep, str]
  exact C8_cancellation cfgC5 [str "p"] (.ok (.dir (str "p") true [])) []
    (fun _ => .ok []) envW 6 (.output (str "P" ++ str "\n\n" ++ str "E")) h 0 (by omega)

/-- C6: when reading exactly one of the non-ignored discovered files
fails, the segment list still has one entry per included file (N in
total), the failing file's position holds the inline error marker
embedding its template-relative path and the error text, every other
position holds the normal rendering, and the destination loop still
attempts every requested destination, one result each. -/
theorem C6_read_failure (config : MergedSheafyConfig) (sp : AbsPath) (vcsPats : List Str)
    (readFn : AbsPath → Except Str Str) (files : List AbsPath) (f0 : AbsPath)
    (i0 : Nat) (msg : Str)
    (hf : (includedFiles config vcsPats files).get? i0 = some f0)
    (hr : readFn f0 = .error msg)
    (hok : ∀ j f, j ≠ i0 → (includedFiles config vcsPats files).get? j = some f →
        ∃ c, readFn f = .ok c) :
    (segmentsOf config sp vcsPats readFn files).length
        = (includedFiles config vcsPats files).length
    ∧ (segmentsOf config sp vcsPats readFn files).get? i0
        = some (errorSegment (relTemplateOf config sp f0) msg)
    ∧ (∀ j f, j ≠ i0 → (includedFiles config vcsPats files).get? j = some f →
        ∃ c, readFn f = .ok c ∧ (segmentsOf config sp vcsPats readFn files).get? j
          = some (renderTemplate config.exportFormatTemplate (relTemplateOf config sp f)
              (getLanguageId f) c))
    ∧ ∀ (env : Env) (finalOutput : Str) (cnt : Nat),
        ∃ s, dispatchLoop none env config finalOutput cnt config.exportDestinations [] []
            = .ok s ∧ s.2.1.length = config.exportDestinations.length := by
  refine ⟨by simp [segmentsOf], ?_, ?_, ?_⟩
  · rw [segmentsOf, List.get?_map, hf]
    simp [fileSegment, hr]
  · intro j f hj hjf
    obtain ⟨c, hc⟩ := hok j f hj hjf
    refine ⟨c, hc, ?_⟩
    rw [segmentsOf, List.get?_map, hjf]
    simp [fileSegment, hc]
  · intro env finalOutput cnt
    exact ⟨_, dispatchLoop_none env config finalOutput config.exportDestinations cnt [] [],
      by simp⟩

/-- C6 witness: with two included files and the read of `/p/b.ts`
failing, position 1 of the segment list is the inline error marker. -/
theorem C6_witness :
    (segmentsOf (sampleConfig [str "p"] false) [str "p"] [] readC6 filesC6).get? 1
      = some (errorSegment
          (relTemplateOf (sampleConfig [str "p"] false) [str "p"] [str "p", str "b.ts"])
          (str "EACCES")) := by
  have hok : ∀ j f, j ≠ 1 →
      (includedFiles (sampleConfig [str "p"] false) [] filesC6).get? j = some f →
      ∃ c, readC6 f = .ok c := by
    intro j f hj hjf
    have hlist : includedFiles (sampleConfig [str "p"] false) [] filesC6 = filesC6 := by
      decide
    rw [hlist] at hjf
    match j, hjf with
    | 0, hjf =>
      refine ⟨str "A", ?_⟩
      have hfa : f = [str "p", str "a.ts"] := by
        simp [filesC6] at hjf
        exact hjf.symm
      subst hfa
      decide
    | 1, _ => exact absurd rfl hj
    | n + 2, hjf => simp [filesC6] at hjf
  exact (C6_read_failure (sampleConfig [str "p"] false) [str "p"] [] readC6 filesC6
    [str "p", str "b.ts"] 1 (str "EACCES") (by decide) (by decide) hok).2.1

/-- C7: the destination loop attempts every configured destination
independently — with no cancellation it returns normally (never raises)
with exactly one result per destination, each attempt independent of
the others; a working-directory creation failure is captured as a
failed file result for that destination only, carrying the mkdir error
message. -/
theorem C7_dispatcher_independence :
    (∀ (env : Env) (config : MergedSheafyConfig) (finalOutput : Str) (cnt : Nat),
      dispatchLoop none env config finalOutput cnt config.exportDestinations [] []
        = .ok (cnt + config.exportDestinations.length,
            config.exportDestinations.map (fun d => (attemptDest env config finalOutput d).1),
            (config.exportDestinations.map
              (fun d => (attemptDest env config finalOutput d).2)).flatten))
    ∧ ∀ (env : Env) (config : MergedSheafyConfig) (finalOutput m : Str),
        config.working_dir ≠ config.basePath →
        env.mkdirRecursive config.working_dir = .error m →
        (attemptDest env config finalOutput .workingDir).1
          = { type := .file, success := false,
              message := some (str "Failed to create working directory "
                ++ absStr config.working_dir ++ str ": " ++ m) } := by
  constructor
  · intro env config finalOutput cnt
    simpa using dispatchLoop_none env config finalOutput config.exportDestinations cnt [] []
  · intro env config finalOutput m hne hmk
    simp [attemptDest, hne, hmk]

/-- C7 witness: clipboard failure plus root-file success yields one
failed and one succeeded result; the mkdir failure of the working
directory is captured with its message. -/
theorem C7_witness :
    dispatchLoop none envC7 cfgC7 (str "T") 0 cfgC7.exportDestinations [] []
      = .ok (0 + 2,
          [{ type := .clipboard, success := false, message := some (str "boom") },
           { filePath := some (str "project_bundle.md"), type := .file, success := true }],
          [Effect.clipboardSet (str "T"),
           Effect.fileWriteAttempt [str "p", str "project_bundle.md"] (str "T")])
    ∧ (attemptDest envC7 cfgC7 (str "T") .workingDir).1
        = { type := .file, success := false,
            message := some (str "Failed to create working directory "
              ++ absStr cfgC7.working_dir ++ str ": " ++ str "denied") } := by
  constructor
  · rw [(C7_dispatcher_independence).1 envC7 cfgC7 (str "T") 0]
    decide
  · exact (C7_dispatcher_independence).2 envC7 cfgC7 (str "T") (str "denied")
      (by decide) (by decide)

/-- C9: an explicit `use_gitignore` in the tool config (true or false)
overrides the host-level `respectGitignore`; when absent — key missing
or whole file missing — the host-level value is used; and when the
effective flag is false the export pipeline neither builds nor consults
the VCS ignore set: its outcome is independent of the `.gitignore`
pattern list. -/
theorem C9_use_gitignore_precedence :
    (∀ (t : SheafyTomlConfig) (vs : SheafyVSCodeSettings) (basePath : AbsPath) (b : Bool),
      t.use_gitignore = some b →
      (mergeSheafyConfig (some t) vs basePath).use_gitignore = b)
    ∧ (∀ (t : SheafyTomlConfig) (vs : SheafyVSCodeSettings) (basePath : AbsPath),
        t.use_gitignore = none →
        (mergeSheafyConfig (some t) vs basePath).use_gitignore = vs.respectGitignore)
    ∧ (∀ (vs : SheafyVSCodeSettings) (basePath : AbsPath),
        (mergeSheafyConfig none vs basePath).use_gitignore = vs.respectGitignore)
    ∧ ∀ (tok : Option Nat) (env : Env) (config : MergedSheafyConfig) (sp : AbsPath)
        (rootStat : Except Str FSEntry) (readFn : AbsPath → Except Str Str)
        (p1 p2 : List Str),
        config.use_gitignore = false →
        exportContent tok env config sp rootStat p1 readFn
          = exportContent tok env config sp rootStat p2 readFn := by
  refine ⟨?_, ?_, ?_, ?_⟩
  · intro t vs basePath b hb
    simp [mergeSheafyConfig, hb]
  · intro t vs basePath hb
    simp [mergeSheafyConfig, hb]
  · intro vs basePath
    simp [mergeSheafyConfig]
  · intro tok env config sp rootStat readFn p1 p2 hug
    have hpre : pipelinePre tok config sp rootStat p1 readFn
        = pipelinePre tok config sp rootStat p2 readFn := by
      simp [pipelinePre, hug]
    rw [exportContent, exportContent, hpre]

/-- C9 witness: an explicit `use_gitignore = false` wins over a
host-level `respectGitignore = true`. -/
theorem C9_witness :
    (mergeSheafyConfig (some { use_gitignore := some false }) vsW [str "p"]).use_gitignore
      = false
    ∧ exportContent none envW cfgC5 [str "p"] (.ok (.dir (str "p") true []))
          [str "ignored-everything"] (fun _ => .ok [])
        = exportContent none envW cfgC5 [str "p"] (.ok (.dir (str "p") true []))
          [] (fun _ => .ok []) :=
  ⟨(C9_use_gitignore_precedence).1 { use_gitignore := some false } vsW [str "p"] false rfl,
   (C9_use_gitignore_precedence).2.2.2 none envW cfgC5 [str "p"]
     (.ok (.dir (str "p") true [])) (fun _ => .ok [])
     [str "ignored-everything"] [] rfl⟩

theorem isPre_subset {α : Type} [DecidableEq α] :
    ∀ (xs ys : List α), isPre xs ys = true → ∀ a ∈ xs, a ∈ ys := by
  intro xs
  induction xs with
  | nil => intro ys _ a ha; simp at ha
  | cons x xs ih =>
    intro ys h a ha
    cases ys with
    | nil => simp [isPre] at h
    | cons y ys =>
      rw [isPre] at h
      by_cases hxy : x = y
      · rw [if_pos hxy] at h
        rcases List.mem_cons.mp ha with h1 | h1
        · simp [h1, hxy]
        · exact List.mem_cons_of_mem _ (ih ys h a h1)
      · rw [if_neg hxy] at h
        exact absurd h (by simp)

theorem splitOnChar_ne_nil (sep : Char) : ∀ (s : Str), splitOnChar sep s ≠ [] := by
  intro s
  induction s with
  | nil => simp [splitOnChar]
  | cons c rest ih =>
    rw [splitOnChar]
    cases hsp : splitOnChar sep rest with
    | nil => exact absurd hsp ih
    | cons h t => by_cases hc : c = sep <;> simp [hc]

theorem splitOnChar_sep_free (sep : Char) :
    ∀ (s : Str), sep ∉ s → splitOnChar sep s = [s] := by
  intro s
  induction s with
  | nil => intro _; rfl
  | cons c rest ih =>
    intro h
    have hc : ¬c = sep := fun hx => h (by simp [hx])
    rw [splitOnChar, ih (fun hx => h (by simp [hx]))]
    simp [hc]

theorem splitOnChar_append_sep (sep : Char) :
    ∀ (c t : Str), sep ∉ c → splitOnChar sep (c ++ sep :: t) = c :: splitOnChar sep t := by
  intro c
  induction c with
  | nil =>
    intro t _
    rw [List.nil_append, splitOnChar]
    cases hsp : splitOnChar sep t with
    | nil => exact absurd hsp (splitOnChar_ne_nil sep t)
    | cons h t2 => simp
  | cons x xs ih =>
    intro t h
    have hx : ¬x = sep := fun hc => h (by simp [hc])
    rw [List.cons_append, splitOnChar, ih t (fun hc => h (by simp [hc]))]
    simp [hx]

theorem splitSlash_joinSlash :
    ∀ (comps : List Str), comps ≠ [] → (∀ c ∈ comps, ('/' : Char) ∉ c) →
    splitSlash (joinSlash comps) = comps := by
  intro comps
  induction comps with
  | nil => intro h; exact absurd rfl h
  | cons c rest ih =>
    intro _ hw
    cases rest with
    | nil => exact splitOnChar_sep_free '/' c (hw c (by simp))
    | cons r rs =>
      have hjoin : joinSlash (c :: r :: rs) = c ++ '/' :: joinSlash (r :: rs) := by
        simp [joinSlash, joinSep]
      rw [hjoin, splitSlash, splitOnChar_append_sep '/' c _ (hw c (by simp))]
      have := ih (by simp) (fun x hx => hw x (by simp [hx]))
      rw [splitSlash] at this
      rw [this]

theorem dropCommon_append : ∀ (a q : List Str), dropCommon a (a ++ q) = ([], q) := by
  intro a
  induction a with
  | nil => intro q; cases q <;> rfl
  | cons x xs ih => intro q; simp [dropCommon, ih]

theorem relStr_append (a q : List Str) : relStr a (a ++ q) = joinSlash q := by
  simp [relStr, relComps, dropCommon_append]

theorem joinAbs_append :
    ∀ (parts : List Str) (base : AbsPath), (∀ c ∈ parts, c ≠ str "..") →
    joinAbs base parts = base ++ joinAbs [] parts := by
  intro parts
  induction parts with
  | nil => intro base _; simp [joinAbs]
  | cons c cs ih =>
    intro base h
    simp only [joinAbs, List.foldl_cons]
    by_cases h1 : c = [] ∨ c = str "."
    · rw [show normStep base c = base from by simp [normStep, h1],
        show normStep [] c = [] from by simp [normStep, h1]]
      exact ih base (fun x hx => h x (by simp [hx]))
    · have h2 : c ≠ str ".." := h c (by simp)
      rw [show normStep base c = base ++ [c] from by simp [normStep, h1, h2],
        show normStep [] c = [c] from by simp [normStep, h1, h2]]
      have ha := ih (base ++ [c]) (fun x hx => h x (by simp [hx]))
      have hb := ih [c] (fun x hx => h x (by simp [hx]))
      rw [joinAbs] at ha hb
      rw [ha, hb]
      simp

theorem matchComps_self : ∀ (x : List Str), x ≠ [] → matchComps x x = true := by
  intro x hx
  match x with
  | [c] => simp [matchComps]
  | c1 :: c2 :: cs =>
    show isPre (c1 :: c2 :: cs) (c1 :: c2 :: cs) = true
    exact isPre_self_refl _

theorem ignoresList_no_neg :
    ∀ (pats : List Str) (rel : List Str),
    (∀ p ∈ pats, isPre (str "!") p = false) →
    ignoresList pats rel = pats.any (fun p => matchComps (splitSlash p) rel) := by
  have main : ∀ (rel : List Str) (pats : List Str) (acc : Bool),
      (∀ p ∈ pats, isPre (str "!") p = false) →
      List.foldl (fun acc p =>
        let pp := parsePat p
        if matchComps pp.2 rel then !pp.1 else acc) acc pats
        = (acc || pats.any (fun p => matchComps (splitSlash p) rel)) := by
    intro rel pats
    induction pats with
    | nil => intro acc _; simp
    | cons p ps ih =>
      intro acc h
      have hp : parsePat p = (false, splitSlash p) := by
        simp [parsePat, h p (by simp)]
      simp only [List.foldl_cons, hp]
      have hstep : (if matchComps (splitSlash p) rel then !false else acc)
          = (acc || matchComps (splitSlash p) rel) := by
        cases hm : matchComps (splitSlash p) rel <;> simp [hm]
      rw [hstep, ih _ (fun q hq => h q (by simp [hq]))]
      simp [Bool.or_assoc]
  intro pats rel h
  have := main rel pats false h
  simpa [ignoresList] using this

/-- C2 counterexample: "the bundle's own output file is excluded from
the bundle on every run" fails when a caller-supplied extra ignore
pattern is the negation `!project_bundle.md`: per standard ignore
semantics (last matching pattern wins) the negation re-includes the
bundle path, and the bundle file survives filtering. -/
theorem C2_counterexample :
    excludedSpec cfgC2 [] (bundleRelPathInRootDir cfgC2) = false
    ∧ includedFiles cfgC2 [] [[str "p", str "project_bundle.md"]]
        = [[str "p", str "project_bundle.md"]] := by
  constructor
  · decide
  · decide

/-- C2 (amended): the tool ignore set is seeded, in order, with the
bundle filename resolved against the root directory, the bundle
filename resolved against the working directory when distinct, the tool
config-file name `sheafy.toml`, and the caller-supplied extra patterns
in order; consequently, provided neither bundle pattern is a negation
and no caller-supplied extra pattern is a negation, the bundle's own
root-relative path — which is the filter path of the bundle file
resolved against either the root or the working directory — is excluded
on every run, including a second run after the bundle file exists on
disk. -/
theorem C2_tool_set_and_self_exclusion (config : MergedSheafyConfig) (vcsPats : List Str)
    (hb1 : isPre (str "!") (bundleRelPathInRootDir config) = false)
    (hb2 : isPre (str "!") (bundleRelPathInWorkingDir config) = false)
    (hne : ∀ p ∈ config.ignore_patterns_array, isPre (str "!") p = false) :
    mainFilterPatterns config
      = [bundleRelPathInRootDir config]
        ++ (if bundleRelPathInWorkingDir config ≠ bundleRelPathInRootDir config then
              [bundleRelPathInWorkingDir config] else [])
        ++ [str "sheafy.toml"] ++ config.ignore_patterns_array
    ∧ excludedSpec config vcsPats (bundleRelPathInRootDir config) = true
    ∧ excludedSpec config vcsPats (bundleRelPathInWorkingDir config) = true := by
  have hsplit : splitSlash (str "sheafy.toml") = [str "sheafy.toml"] := by decide
  have hsheafy : relStr config.basePath
      (joinAbs config.basePath (splitSlash (str "sheafy.toml"))) = str "sheafy.toml" := by
    rw [hsplit, joinAbs_append [str "sheafy.toml"] config.basePath (by decide),
      show joinAbs [] [str "sheafy.toml"] = [str "sheafy.toml"] from by decide,
      relStr_append]
    decide
  have hshape : mainFilterPatterns config
      = [bundleRelPathInRootDir config]
        ++ (if bundleRelPathInWorkingDir config ≠ bundleRelPathInRootDir config then
              [bundleRelPathInWorkingDir config] else [])
        ++ [str "sheafy.toml"] ++ config.ignore_patterns_array := by
    rw [mainFilterPatterns, hsheafy]
  have hall : ∀ p ∈ mainFilterPatterns config, isPre (str "!") p = false := by
    intro p hp
    rw [hshape] at hp
    simp only [List.mem_append, List.mem_cons, List.mem_singleton] at hp
    rcases hp with ((h | h) | h) | h
    · rcases h with h | h
      · rw [h]
        exact hb1
      · simp at h
    · by_cases hcond : bundleRelPathInWorkingDir config ≠ bundleRelPathInRootDir config
      · rw [if_pos hcond] at h
        simp only [List.mem_singleton] at h
        rw [h]
        exact hb2
      · rw [if_neg hcond] at h
        simp at h
    · rcases h with h | h
      · rw [h]
        decide
      · simp at h
    · exact hne p h
  have hmem : ∀ (b : Str), b ∈ mainFilterPatterns config →
      excludedSpec config vcsPats b = true := by
    intro b hb
    have hnil : splitSlash b ≠ [] := splitOnChar_ne_nil '/' b
    have hig : ignoresList (mainFilterPatterns config) (splitSlash b) = true := by
      rw [ignoresList_no_neg _ _ hall]
      exact List.any_eq_true.mpr ⟨b, hb, matchComps_self _ hnil⟩
    simp [excludedSpec, hig]
  refine ⟨hshape, hmem _ (by rw [hshape]; simp), hmem _ ?_⟩
  by_cases hcond : bundleRelPathInWorkingDir config ≠ bundleRelPathInRootDir config
  · rw [hshape, if_pos hcond]
    simp
  · push_neg at hcond
    rw [hshape, hcond]
    simp

/-- C2 witness: with negation-free extra patterns and distinct root and
working directories, the bundle's root-relative path is excluded. -/
theorem C2_witness :
    excludedSpec cfgC2W [] (bundleRelPathInRootDir cfgC2W) = true
    ∧ excludedSpec cfgC2W [] (bundleRelPathInWorkingDir cfgC2W) = true := by
  have h := C2_tool_set_and_self_exclusion cfgC2W [] (by decide) (by decide) (by decide)
  exact ⟨h.2.1, h.2.2⟩

theorem isPre_sep_marker :
    ∀ (p c t : Str), ('/' : Char) ∉ p → ('/' : Char) ∉ c →
    (isPre (p ++ ['/']) (c ++ '/' :: t) = true ↔ p = c) := by
  intro p
  induction p with
  | nil =>
    intro c t _ hc
    cases c with
    | nil => simp [isPre]
    | cons b bs =>
      have hb : ¬('/' : Char) = b := fun hx => hc (by simp [← hx])
      simp [isPre, hb]
  | cons a as ih =>
    intro c t hp hc
    have ha : a ≠ '/' := fun hx => hp (by simp [hx])
    cases c with
    | nil => simp [isPre, ha]
    | cons b bs =>
      rw [List.cons_append, List.cons_append, isPre]
      by_cases hab : a = b
      · rw [if_pos hab]
        rw [ih bs t (fun hx => hp (by simp [hx])) (fun hx => hc (by simp [hx]))]
        simp [hab]
      · rw [if_neg hab]
        simp [hab]

theorem gitMetaExcluded_iff :
    ∀ (comps : List Str), (∀ c ∈ comps, c ≠ [] ∧ ('/' : Char) ∉ c) →
    (gitMetaExcluded (joinSlash comps) = true ↔ comps.head? = some (str ".git")) := by
  intro comps hw
  cases comps with
  | nil => simp [joinSlash, joinSep]; decide
  | cons c rest =>
    have hc := hw c (by simp)
    cases rest with
    | nil =>
      have hj : joinSlash [c] = c := rfl
      rw [hj, gitMetaExcluded]
      have hpre : isPre (str ".git/") c = false := by
        cases hx : isPre (str ".git/") c with
        | false => rfl
        | true =>
          have hmem := isPre_subset _ _ hx '/' (by decide)
          exact absurd hmem hc.2
      rw [hpre]
      simp [List.head?, decide_eq_true_eq]
    | cons r rs =>
      have hjoin : joinSlash (c :: r :: rs) = c ++ '/' :: joinSlash (r :: rs) := by
        simp [joinSlash, joinSep]
      rw [hjoin, gitMetaExcluded]
      have hne : (c ++ '/' :: joinSlash (r :: rs)) ≠ str ".git" := by
        intro hx
        have hmem : ('/' : Char) ∈ str ".git" := by
          rw [← hx]
          simp
        exact absurd hmem (by decide)
      have hpre : isPre (str ".git/") (c ++ '/' :: joinSlash (r :: rs)) = true ↔
          str ".git" = c := by
        have h1 : str ".git/" = str ".git" ++ ['/'] := by decide
        rw [h1]
        exact isPre_sep_marker (str ".git") c (joinSlash (r :: rs)) (by decide) hc.2
      simp only [List.head?_cons, Option.some.injEq]
      constructor
      · intro hx
        have hx2 : isPre (str ".git/") (c ++ '/' :: joinSlash (r :: rs)) = true
            ∨ (c ++ '/' :: joinSlash (r :: rs)) = str ".git" := by
          simpa using hx
        rcases hx2 with h | h
        · exact (hpre.mp h).symm
        · exact absurd h hne
      · intro hx
        have h := hpre.mpr hx.symm
        simp [h]

/-- C10: the hard-coded VCS-metadata exclusion is a path-component
check: over well-formed slash-joined components it holds exactly when
the leading component is `.git`; `.gitignore` and anything under
`.github/` are not excluded by it, and with empty pattern sets the
`.gitignore` file survives filtering into the bundle; traversal prunes
the directory named exactly `.git` but descends into `.github`. -/
theorem C10_git_component_check :
    (∀ (comps : List Str), (∀ c ∈ comps, c ≠ [] ∧ ('/' : Char) ∉ c) →
      (gitMetaExcluded (joinSlash comps) = true ↔ comps.head? = some (str ".git")))
    ∧ gitMetaExcluded (str ".gitignore") = false
    ∧ gitMetaExcluded (str ".github/workflows/ci.yml") = false
    ∧ gitMetaExcluded (str ".git") = true
    ∧ gitMetaExcluded (str ".git/config") = true
    ∧ includedFiles (sampleConfig [str "p"] false) [] [[str "p", str ".gitignore"]]
        = [[str "p", str ".gitignore"]]
    ∧ prunedDirNames.contains (str ".git") = true
    ∧ prunedDirNames.contains (str ".github") = false
    ∧ getAllFilesRecursive none 0 [str "p"] true
        [FSEntry.dir (str ".git") true [FSEntry.file (str "config")],
         FSEntry.dir (str ".github") true [FSEntry.file (str "f")],
         FSEntry.file (str ".gitignore")]
      = .ok (6, [[str "p", str ".github", str "f"], [str "p", str ".gitignore"]]) := by
  refine ⟨gitMetaExcluded_iff, by decide, by decide, by decide, by decide, by decide,
    by decide, by decide, ?_⟩
  simp +decide [getAllFilesRecursive, travList, checkTok, isCancelled, prunedDirNames, str]

/-- C10 witness: the component characterisation applied to the
single-component path `.gitignore`: it is excluded by the hard-coded
check exactly never, since its head component is not `.git`. -/
theorem C10_witness :
    gitMetaExcluded (joinSlash [str ".gitignore"]) = true ↔
      [str ".gitignore"].head? = some (str ".git") :=
  (C10_git_component_check).1 [str ".gitignore"] (by decide)

end Sheafy
